import Mathlib

/-!
Verification development for `build_documentation.py`, a documentation
generation helper that walks a Python package's source tree, maps every
source file to a dotted module name, and drives a configuration-based
documentation engine (pydoc-markdown) to emit one Markdown file per module.

Python strings are embedded as `List Char`, so every Python string
operation used by the script (`removeprefix`, `removesuffix`, `split`,
`join`, `replace`, `endswith`, substring membership) is modelled as an
executable function on character lists.  The external documentation engine
(`PydocMarkdown`, its loaders and renderer) is opaque to the script; it is
modelled by a small record holding exactly the fields the script touches,
and the engine operations the script merely invokes (`load_config`,
`load_modules`) are passed in as function arguments.  The filesystem walk
(`os.walk`) is likewise abstracted as the list of `(root, filename)` pairs
it yields.
-/

deriving instance DecidableEq for Except

/-- Python `s.split(sep)` for a single-character separator: splitting the
empty string yields `[""]`, and `n` separators yield `n + 1` pieces. -/
def splitSep (sep : Char) : List Char → List (List Char)
  | [] => [[]]
  | c :: rest =>
    if c = sep then [] :: splitSep sep rest
    else
      match splitSep sep rest with
      | [] => [[c]]
      | p :: ps => (c :: p) :: ps

/-- Python `sep.join(parts)` for a single-character separator. -/
def joinSep (sep : Char) : List (List Char) → List Char
  | [] => []
  | [p] => p
  | p :: ps => p ++ sep :: joinSep sep ps

/-- Python `s.removeprefix(p)`: drop `p` from the front when it is a literal
front piece of `s`, otherwise return `s` unchanged. -/
def stripPre (p s : List Char) : List Char :=
  if p.isPrefixOf s then s.drop p.length else s

/-- Python `s.removesuffix(p)`: drop `p` from the end when it is a literal
end piece of `s`, otherwise return `s` unchanged. -/
def stripSuf (p s : List Char) : List Char :=
  if p.isSuffixOf s then s.take (s.length - p.length) else s

/-- The characters of the `".py"` extension. -/
def pyExt : List Char := ['.', 'p', 'y']

/-- The characters of the `".md"` extension. -/
def mdExt : List Char := ['.', 'm', 'd']

/-- Fuel-indexed worker for `replaceAll`.  The fuel dominates the length of
the subject list, so the `0, s => s` row is never reached by `replaceAll`;
fuel recursion keeps the definition structurally recursive and hence
kernel-evaluable on concrete inputs. -/
def replaceAllF (pat repl : List Char) : Nat → List Char → List Char
  | _, [] => []
  | 0, s => s
  | fuel + 1, c :: rest =>
    if pat ≠ [] ∧ pat.isPrefixOf (c :: rest) then
      repl ++ replaceAllF pat repl fuel (rest.drop (pat.length - 1))
    else
      c :: replaceAllF pat repl fuel rest

/-- Python `s.replace(pat, repl)` for a nonempty pattern: replace every
non-overlapping occurrence of `pat`, scanning left to right.  (Both
patterns the script passes to `replace` — the package directory, which ends
in a separator, and `".py"` — are nonempty.) -/
def replaceAll (pat repl s : List Char) : List Char :=
  replaceAllF pat repl s.length s

/-- Python `os.path.basename` for POSIX paths: the piece after the last
separator. -/
def basename (p : List Char) : List Char :=
  (splitSep '/' p).getLastD []

/-- Python `os.path.join(root, f)` for POSIX paths, in the two-argument
form used by the directory walk. -/
def pathJoin (root f : List Char) : List Char :=
  if f.head? = some '/' then f
  else if root = [] then f
  else if root.getLast? = some '/' then root ++ f
  else root ++ '/' :: f

/-- Lines 183-186 of `main`: append a trailing separator to a directory
path unless it already ends with one. -/
def normalizeDir (d : List Char) : List Char :=
  if d.getLast? = some '/' then d else d ++ ['/']

/-- Line 188 of `main`: `package_name = package_dir.split("/")[-2]`,
computed on the normalized package directory.  After normalization the
split always has at least two pieces, so the default is never used. -/
def packageName (d : List Char) : List Char :=
  let parts := splitSep '/' (normalizeDir d)
  parts.getD (parts.length - 2) []

/-- The last non-empty path segment of a directory path, following the
specification's words ("the last non-empty path segment of the package
directory"); used to compare `packageName` against the spec. -/
def lastNonEmptySeg (d : List Char) : Option (List Char) :=
  ((splitSep '/' d).filter (fun p => !p.isEmpty)).getLast?

/-- Lines 145-163: `file2module(file, path)` — strip the root, strip a
trailing `".py"`, split on separators, keep the truthy (nonempty) parts,
join with dots. -/
def file2module (file path : List Char) : List Char :=
  joinSep '.'
    ((splitSep '/' (stripSuf pyExt (stripPre path file))).filter
      (fun p => !p.isEmpty))

/-- Line 209 of `main`:
`output_file = file.replace(package_dir, docs_dir).replace(".py", ".md")`. -/
def outputPath (packageDir docsDir file : List Char) : List Char :=
  replaceAll pyExt mdExt (replaceAll packageDir docsDir file)

/-- Modelled from the claim's words, for comparison with `outputPath`: the
file path with its package-directory front piece substituted by the docs
directory and its `".py"` trailing piece substituted by `".md"`, no other
part of the path altered. -/
def claimedOutputPath (packageDir docsDir file : List Char) : List Char :=
  docsDir ++ stripSuf pyExt (stripPre packageDir file) ++ mdExt

/-- Line 205 of `main`: a source file is processed unless its base name is
in the skip list or the package name does not occur as a substring of the
path. -/
def shouldProcess (skipFiles : List (List Char)) (pkgName file : List Char) : Bool :=
  !(decide (basename file ∈ skipFiles)) && decide (pkgName <:+: file)

/-- The files that survive the per-file filter of the `main` loop
(lines 204-206). -/
def processedFiles (skipFiles : List (List Char)) (pkgName : List Char)
    (srcFiles : List (List Char)) : List (List Char) :=
  srcFiles.filter (fun f => shouldProcess skipFiles pkgName f)

/-- Lines 190-195 of `main`: the directory walk, abstracted as the list of
`(root, filename)` pairs `os.walk` yields; keep the files ending in `".py"`
whose (walk-reported) name is not skip-listed, joined onto their root. -/
def discoverFiles (skipFiles : List (List Char))
    (walk : List (List Char × List Char)) : List (List Char) :=
  (walk.filter
      (fun rf => pyExt.isSuffixOf rf.2 && !(decide (rf.2 ∈ skipFiles)))).map
    (fun rf => pathJoin rf.1 rf.2)

/-- The source filename recorded for a module discovered by the engine
(`m.location.filename`). -/
structure ModuleInfo where
  location_filename : List Char
deriving DecidableEq

/-- The fields of a `PythonLoader` that `_apply_overrides` touches,
including the loader's parser `print_function` switch. -/
structure PythonLoaderState where
  modules : List (List Char)
  packages : List (List Char)
  search_path : List (List Char)
  parser_print_function : Bool
deriving DecidableEq

/-- A loader in the engine configuration's loader list: either a
`PythonLoader` or a loader of some other type. -/
inductive Loader where
  | python (state : PythonLoaderState)
  | other (tag : Nat)
deriving DecidableEq

/-- Whether the loader list holds at least one `PythonLoader`
(the `next(..., None)` search of lines 80-87 succeeds). -/
def hasPythonLoader : List Loader → Bool
  | [] => false
  | Loader.python _ :: _ => true
  | _ :: rest => hasPythonLoader rest

/-- Mutating the first `PythonLoader` of the loader list in place, as the
`next(...)` search followed by attribute assignment does. -/
def updateFirstPython (g : PythonLoaderState → PythonLoaderState) :
    List Loader → List Loader
  | [] => []
  | Loader.python pl :: rest => Loader.python (g pl) :: rest
  | l :: rest => l :: updateFirstPython g rest

/-- The engine configuration object, restricted to the state the script
reads or writes: the loader list, the unknown-field list it warns about,
the renderer output filename `main` assigns, and whether `config.init` was
called with a `Context` (done only when the session's configuration source
is a file path). -/
structure PydocMarkdown where
  loaders : List Loader
  unknown_fields : List (List Char)
  renderer_filename : Option (List Char)
  contextDirSet : Bool
deriving DecidableEq

/-- The session's configuration source: Python `None`, an in-memory `dict`,
or a configuration file path (a `str`). -/
inductive ConfigSrc where
  | absent
  | dict (entries : List (List Char × List Char))
  | file (path : List Char)
deriving DecidableEq

/-- Python truthiness of the configuration source (`if self.config:`):
`None`, the empty dict and the empty string are falsy. -/
def truthyConfig : ConfigSrc → Bool
  | ConfigSrc.absent => false
  | ConfigSrc.dict entries => !entries.isEmpty
  | ConfigSrc.file p => !p.isEmpty

/-- Python `isinstance(self.config, str)`. -/
def ConfigSrc.isFile : ConfigSrc → Bool
  | ConfigSrc.file _ => true
  | _ => false

/-- The `RenderSession` value object (lines 41-66): the configuration
source plus the optional overrides, `None` meaning "not supplied". -/
structure RenderSession where
  config : ConfigSrc
  render_toc : Option Bool
  search_path : Option (List (List Char))
  modules : Option (List (List Char))
  packages : Option (List (List Char))
  py2 : Option Bool
deriving DecidableEq

/-- Python truthiness of an optional list override: `None` and a supplied
empty list are both falsy. -/
def truthyList (o : Option (List (List Char))) : Bool :=
  match o with
  | none => false
  | some l => !l.isEmpty

/-- Line 79: the guard that decides whether `_apply_overrides` touches the
configuration at all:
`self.modules or self.packages or self.search_path or self.py2 is not None`. -/
def overridesRequested (s : RenderSession) : Bool :=
  truthyList s.modules || truthyList s.packages || truthyList s.search_path
    || s.py2.isSome

/-- Lines 90-97: the field assignments performed on the located
`PythonLoader`.  Each list override is applied only when truthy; the `py2`
flag is applied whenever it is not `None`, negated into the parser's
`print_function` switch. -/
def applyToLoader (s : RenderSession) (pl : PythonLoaderState) : PythonLoaderState :=
  let pl1 := if truthyList s.modules then
    { pl with modules := s.modules.getD [] } else pl
  let pl2 := if truthyList s.packages then
    { pl1 with packages := s.packages.getD [] } else pl1
  let pl3 := if truthyList s.search_path then
    { pl2 with search_path := s.search_path.getD [] } else pl2
  match s.py2 with
  | some b => { pl3 with parser_print_function := !b }
  | none => pl3

/-- Lines 68-97: `_apply_overrides`.  When the guard of line 79 holds, the
first `PythonLoader` of the configuration is located and updated in place;
if none exists a `ValueError("no python loader found")` is raised, modelled
as `Except.error`. -/
def applyOverrides (s : RenderSession) (c : PydocMarkdown) :
    Except String PydocMarkdown :=
  if overridesRequested s then
    if hasPythonLoader c.loaders then
      Except.ok { c with loaders := updateFirstPython (applyToLoader s) c.loaders }
    else
      Except.error "no python loader found"
  else
    Except.ok c

/-- The configuration object as it stands after lines 106-108 of `load`:
a fresh engine configuration, with `config.load_config(self.config)`
applied when the source is truthy.  `load_config` belongs to the external
engine and is passed in as `lc`. -/
def effectiveConfig (s : RenderSession) (fresh : PydocMarkdown)
    (lc : ConfigSrc → PydocMarkdown → PydocMarkdown) : PydocMarkdown :=
  if truthyConfig s.config then lc s.config fresh else fresh

/-- Lines 99-122: `load()`.  Builds the effective configuration, applies
the overrides (which can raise), then — when the configuration source is a
file path — initializes the engine context from that file's directory.
The unknown-field check of lines 116-120 only emits a log warning and
leaves the configuration unchanged, so it contributes no state here. -/
def RenderSession.load (s : RenderSession) (fresh : PydocMarkdown)
    (lc : ConfigSrc → PydocMarkdown → PydocMarkdown) :
    Except String PydocMarkdown :=
  match applyOverrides s (effectiveConfig s fresh lc) with
  | Except.error e => Except.error e
  | Except.ok c =>
    Except.ok (if s.config.isFile then { c with contextDirSet := true } else c)

/-- Lines 124-142: `render(config)`.  `config.load_modules()` belongs to
the external engine; its result is the `loadedModules` argument
(`config.process` and `config.render` only produce external side effects).
The watch set is the set of module source filenames, plus the
configuration file path when the source is a `str`, returned as a list. -/
def RenderSession.render (s : RenderSession) (loadedModules : List ModuleInfo) :
    List (List Char) :=
  let watch := (loadedModules.map (fun m => m.location_filename)).dedup
  match s.config with
  | ConfigSrc.file p => if p ∈ watch then watch else watch ++ [p]
  | _ => watch

/-- One load-then-render pass of a session: `render` runs only when `load`
succeeded, so a load failure propagates and nothing is rendered. -/
def runSession (s : RenderSession) (fresh : PydocMarkdown)
    (lc : ConfigSrc → PydocMarkdown → PydocMarkdown)
    (lm : PydocMarkdown → List ModuleInfo) :
    Except String (List (List Char)) :=
  match s.load fresh lc with
  | Except.error e => Except.error e
  | Except.ok c => Except.ok (s.render (lm c))

/-- Lines 199-218 of `main`: the session built for one source file —
table of contents enabled, search path `[package_dir]`, the single module
resolved by `file2module`, an empty package list, and `py2 = False`. -/
def mainSession (cfg : ConfigSrc) (packageDir file : List Char) : RenderSession :=
  { config := cfg,
    render_toc := some true,
    search_path := some [packageDir],
    modules := some [file2module file packageDir],
    packages := some [],
    py2 := some false }

/-- One iteration of the `main` loop body (lines 207-222) for an already
admitted file: load the session, set the renderer's output filename to the
computed output path, render. -/
def processOne (cfg : ConfigSrc) (packageDir docsDir : List Char)
    (fresh : PydocMarkdown) (lc : ConfigSrc → PydocMarkdown → PydocMarkdown)
    (lm : PydocMarkdown → List ModuleInfo) (file : List Char) :
    Except String (List (List Char)) :=
  let s := mainSession cfg packageDir file
  match s.load fresh lc with
  | Except.error e => Except.error e
  | Except.ok c =>
    let c2 := { c with renderer_filename := some (outputPath packageDir docsDir file) }
    Except.ok (s.render (lm c2))

/-- The `main` loop over the admitted files: strictly sequential, and the
first error aborts the whole run (no per-file isolation). -/
def runFiles (cfg : ConfigSrc) (packageDir docsDir : List Char)
    (fresh : PydocMarkdown) (lc : ConfigSrc → PydocMarkdown → PydocMarkdown)
    (lm : PydocMarkdown → List ModuleInfo) :
    List (List Char) → Except String Unit
  | [] => Except.ok ()
  | f :: rest =>
    match processOne cfg packageDir docsDir fresh lc lm f with
    | Except.error e => Except.error e
    | Except.ok _ => runFiles cfg packageDir docsDir fresh lc lm rest

/-- An engine `load_config` behavior returning the fresh configuration
unchanged; used to instantiate the abstract engine in concrete checks. -/
def lcId : ConfigSrc → PydocMarkdown → PydocMarkdown := fun _ c => c

/-- An engine `load_modules` behavior discovering no modules; used in
concrete checks. -/
def lmNone : PydocMarkdown → List ModuleInfo := fun _ => []

/-- A fresh engine configuration holding no loaders at all. -/
def emptyConfig : PydocMarkdown :=
  { loaders := [], unknown_fields := [], renderer_filename := none,
    contextDirSet := false }

/-- A Python loader with pre-existing field values, used in concrete
checks. -/
def samplePL : PythonLoaderState :=
  { modules := [['x']], packages := [['y']], search_path := [['z']],
    parser_print_function := true }

/-- A configuration holding exactly one Python loader, `samplePL`. -/
def samplePLConfig : PydocMarkdown :=
  { loaders := [Loader.python samplePL], unknown_fields := [],
    renderer_filename := none, contextDirSet := false }

/-- A session supplying only the search-path override. -/
def searchOnlySession : RenderSession :=
  { config := ConfigSrc.absent, render_toc := none,
    search_path := some [['p']], modules := none, packages := none,
    py2 := none }

/-- A session supplying the search-path override together with an
explicitly supplied — but empty — module list. -/
def emptyModulesSession : RenderSession :=
  { config := ConfigSrc.absent, render_toc := none,
    search_path := some [['p']], modules := some [], packages := none,
    py2 := none }

/-- A session supplying only the legacy-syntax flag `py2 = True`. -/
def py2TrueSession : RenderSession :=
  { config := ConfigSrc.absent, render_toc := none, search_path := none,
    modules := none, packages := none, py2 := some true }

/-! ### Lemmas about `splitSep` and `joinSep` -/

lemma splitSep_ne_nil (sep : Char) : ∀ s : List Char, splitSep sep s ≠ []
  | [] => by simp [splitSep]
  | c :: rest => by
    simp only [splitSep]
    split
    · simp
    · split <;> simp

lemma splitSep_no_sep (sep : Char) : ∀ s : List Char, sep ∉ s → splitSep sep s = [s]
  | [], _ => by simp [splitSep]
  | c :: rest, h => by
    have hc : ¬ (c = sep) := fun e => h (by simp [e])
    have hr : sep ∉ rest := fun m => h (by simp [m])
    simp [splitSep, if_neg hc, splitSep_no_sep sep rest hr]

lemma splitSep_append_cons (sep : Char) :
    ∀ (a b : List Char), sep ∉ a → splitSep sep (a ++ sep :: b) = a :: splitSep sep b
  | [], b, _ => by simp [splitSep]
  | c :: a, b, h => by
    have hc : ¬ (c = sep) := fun e => h (by simp [e])
    have ha : sep ∉ a := fun m => h (by simp [m])
    simp [splitSep, if_neg hc, splitSep_append_cons sep a b ha]

lemma splitSep_concat_sep (sep : Char) :
    ∀ m : List Char, splitSep sep (m ++ [sep]) = splitSep sep m ++ [[]]
  | [] => by simp [splitSep]
  | c :: m => by
    have hrec := splitSep_concat_sep sep m
    by_cases hc : c = sep
    · simp [splitSep, hc, hrec]
    · simp only [List.cons_append, splitSep, if_neg hc]
      cases h : splitSep sep m with
      | nil => exact absurd h (splitSep_ne_nil sep m)
      | cons p ps =>
        have hrec2 : splitSep sep (m.append [sep]) = splitSep sep m ++ [[]] := hrec
        rw [hrec2, h]
        simp

lemma mem_of_mem_splitSep (sep : Char) :
    ∀ (s p : List Char), p ∈ splitSep sep s → ∀ c ∈ p, c ∈ s
  | [], p, hp, c, hc => by
    simp [splitSep] at hp
    subst hp
    simp at hc
  | x :: rest, p, hp, c, hc => by
    simp only [splitSep] at hp
    by_cases hx : x = sep
    · rw [if_pos hx] at hp
      rcases List.mem_cons.mp hp with rfl | hp2
      · simp at hc
      · exact List.mem_cons_of_mem x (mem_of_mem_splitSep sep rest p hp2 c hc)
    · rw [if_neg hx] at hp
      cases hsr : splitSep sep rest with
      | nil => exact absurd hsr (splitSep_ne_nil sep rest)
      | cons q qs =>
        rw [hsr] at hp
        rcases List.mem_cons.mp hp with rfl | hp2
        · rcases List.mem_cons.mp hc with rfl | hc2
          · exact List.mem_cons_self c rest
          · have hq : q ∈ splitSep sep rest := by
              rw [hsr]; exact List.mem_cons_self q qs
            exact List.mem_cons_of_mem x (mem_of_mem_splitSep sep rest q hq c hc2)
        · have hps : p ∈ splitSep sep rest := by
            rw [hsr]; exact List.mem_cons_of_mem q hp2
          exact List.mem_cons_of_mem x (mem_of_mem_splitSep sep rest p hps c hc)

lemma joinSep_roundtrip (sep : Char) :
    ∀ parts : List (List Char), parts ≠ [] → (∀ p ∈ parts, sep ∉ p) →
      splitSep sep (joinSep sep parts) = parts
  | [], h, _ => absurd rfl h
  | [p], _, h => by
    simp only [joinSep]
    exact splitSep_no_sep sep p (h p (by simp))
  | p :: q :: ps, _, h => by
    have hp : sep ∉ p := h p (by simp)
    show splitSep sep (p ++ sep :: joinSep sep (q :: ps)) = p :: q :: ps
    rw [splitSep_append_cons sep p _ hp,
      joinSep_roundtrip sep (q :: ps) (by simp) (fun r hr => h r (by simp [hr]))]

lemma joinSep_ne_nil (sep : Char) (p : List Char) (ps : List (List Char)) (hp : p ≠ []) :
    joinSep sep (p :: ps) ≠ [] := by
  cases ps with
  | nil => simpa [joinSep] using hp
  | cons q qs => simp [joinSep]

lemma joinSep_head? (sep : Char) (p : List Char) (ps : List (List Char)) (hp : p ≠ []) :
    (joinSep sep (p :: ps)).head? = p.head? := by
  cases ps with
  | nil => rfl
  | cons q qs =>
    cases p with
    | nil => exact absurd rfl hp
    | cons a p2 => simp [joinSep]

lemma joinSep_getLast?_mem (sep : Char) :
    ∀ parts : List (List Char), parts ≠ [] → (∀ p ∈ parts, p ≠ []) →
      ∃ q ∈ parts, (joinSep sep parts).getLast? = q.getLast?
  | [], h, _ => absurd rfl h
  | [p], _, _ => ⟨p, by simp, by simp [joinSep]⟩
  | p :: q :: ps, _, h => by
    obtain ⟨r, hr, he⟩ :=
      joinSep_getLast?_mem sep (q :: ps) (by simp) (fun x hx => h x (by simp [hx]))
    refine ⟨r, by simp [List.mem_cons.mp hr], ?_⟩
    have hq : q ≠ [] := h q (by simp)
    have hj : joinSep sep (q :: ps) ≠ [] := joinSep_ne_nil sep q ps hq
    obtain ⟨b, l, hbl⟩ : ∃ b l, joinSep sep (q :: ps) = b :: l := by
      cases hx : joinSep sep (q :: ps) with
      | nil => exact absurd hx hj
      | cons b l => exact ⟨b, l, rfl⟩
    show (p ++ sep :: joinSep sep (q :: ps)).getLast? = r.getLast?
    rw [List.getLast?_append, hbl]
    simp only [List.getLast?_cons_cons]
    rw [← hbl, he]
    cases hrl : r.getLast? with
    | none =>
      exact absurd (List.getLast?_eq_none_iff.mp hrl) (h r (by simp [List.mem_cons.mp hr]))
    | some x => rfl

/-! ### Lemmas about `replaceAll` -/

lemma replaceAllF_fuel (pat repl : List Char) :
    ∀ (f1 : Nat) (s : List Char) (f2 : Nat), s.length ≤ f1 → s.length ≤ f2 →
      replaceAllF pat repl f1 s = replaceAllF pat repl f2 s := by
  intro f1
  induction f1 with
  | zero =>
    intro s f2 h1 _
    have hs : s = [] := List.eq_nil_of_length_eq_zero (Nat.le_zero.mp h1)
    subst hs
    cases f2 <;> simp [replaceAllF]
  | succ n ih =>
    intro s f2 h1 h2
    cases s with
    | nil => cases f2 <;> simp [replaceAllF]
    | cons c rest =>
      cases f2 with
      | zero => simp at h2
      | succ m =>
        simp only [List.length_cons, Nat.add_le_add_iff_right] at h1 h2
        by_cases hcond : pat ≠ [] ∧ pat.isPrefixOf (c :: rest)
        · simp only [replaceAllF, if_pos hcond]
          have hd : (rest.drop (pat.length - 1)).length ≤ rest.length := by
            simp [List.length_drop]
          rw [ih (rest.drop (pat.length - 1)) m (le_trans hd h1) (le_trans hd h2)]
        · simp only [replaceAllF, if_neg hcond]
          rw [ih rest m h1 h2]

lemma replaceAll_nil (pat repl : List Char) : replaceAll pat repl [] = [] := rfl

lemma replaceAll_cons_neg (pat repl : List Char) (c : Char) (rest : List Char)
    (h : ¬ (pat ≠ [] ∧ pat.isPrefixOf (c :: rest))) :
    replaceAll pat repl (c :: rest) = c :: replaceAll pat repl rest := by
  simp only [replaceAll, List.length_cons, replaceAllF, if_neg h]

lemma replaceAll_prepend (pat repl rest : List Char) (hp : pat ≠ []) :
    replaceAll pat repl (pat ++ rest) = repl ++ replaceAll pat repl rest := by
  cases pat with
  | nil => exact absurd rfl hp
  | cons p pt =>
    have hpre : (p :: pt).isPrefixOf (p :: pt ++ rest) :=
      List.isPrefixOf_iff_prefix.mpr (List.prefix_append (p :: pt) rest)
    simp only [replaceAll, List.cons_append, List.length_cons, List.length_append,
      replaceAllF]
    split
    · have hd : (pt.append rest).drop (pt.length + 1 - 1) = rest := by
        simp only [Nat.add_sub_cancel]
        exact List.drop_left pt rest
      rw [hd]
      congr 1
      exact replaceAllF_fuel (p :: pt) repl _ rest _ (by simp) (le_refl _)
    · rename_i hfalse
      exact absurd (And.intro (List.cons_ne_nil p pt) hpre) hfalse

lemma replaceAll_no_occ (pat repl : List Char) (hp : pat ≠ []) :
    ∀ s : List Char, (∀ i, ¬ pat <+: s.drop i) → replaceAll pat repl s = s
  | [], _ => rfl
  | c :: rest, h => by
    have h0 : ¬ pat <+: (c :: rest) := by simpa using h 0
    have hcond : ¬ (pat ≠ [] ∧ pat.isPrefixOf (c :: rest)) := by
      rintro ⟨_, hb⟩
      exact h0 (List.isPrefixOf_iff_prefix.mp hb)
    rw [replaceAll_cons_neg pat repl c rest hcond,
      replaceAll_no_occ pat repl hp rest (fun i => h (i + 1))]

lemma replaceAll_tail_pat (pat repl : List Char) (hp : pat ≠ []) :
    ∀ a : List Char, (∀ i, i < a.length → ¬ pat <+: ((a ++ pat).drop i)) →
      replaceAll pat repl (a ++ pat) = a ++ repl
  | [], _ => by
    have h1 := replaceAll_prepend pat repl [] hp
    rw [replaceAll_nil, List.append_nil, List.append_nil] at h1
    simpa using h1
  | c :: a, h => by
    have h0 : ¬ pat <+: (c :: (a ++ pat)) := by simpa using h 0 (by simp)
    have hcond : ¬ (pat ≠ [] ∧ pat.isPrefixOf (c :: (a ++ pat))) := by
      rintro ⟨_, hb⟩
      exact h0 (List.isPrefixOf_iff_prefix.mp hb)
    rw [List.cons_append, replaceAll_cons_neg pat repl c (a ++ pat) hcond,
      replaceAll_tail_pat pat repl hp a (fun i hi => h (i + 1) (by simpa using hi))]
    rfl

/-! ### Shape of `file2module` results -/

lemma file2module_shape (f r : List Char)
    (hdot : '.' ∉ stripSuf pyExt (stripPre r f)) :
    (file2module f r = [] ∨ ∀ p ∈ splitSep '.' (file2module f r), p ≠ []) ∧
      (file2module f r).head? ≠ some '.' ∧
      (file2module f r).getLast? ≠ some '.' := by
  have hmem : ∀ p ∈ (splitSep '/' (stripSuf pyExt (stripPre r f))).filter
      (fun p => !p.isEmpty), p ≠ [] ∧ '.' ∉ p := by
    intro p hp
    have h1 : p ∈ splitSep '/' (stripSuf pyExt (stripPre r f)) :=
      List.mem_of_mem_filter hp
    have h2 := List.of_mem_filter hp
    refine ⟨by simpa using h2, fun hc => ?_⟩
    exact hdot (mem_of_mem_splitSep '/' _ p h1 '.' hc)
  have hfm : file2module f r =
      joinSep '.' ((splitSep '/' (stripSuf pyExt (stripPre r f))).filter
        (fun p => !p.isEmpty)) := rfl
  cases hp : (splitSep '/' (stripSuf pyExt (stripPre r f))).filter
      (fun p => !p.isEmpty) with
  | nil =>
    rw [hfm, hp]
    simp [joinSep]
  | cons p0 ps =>
    rw [hp] at hmem
    have hne : p0 :: ps ≠ [] := by simp
    have hall : ∀ p ∈ p0 :: ps, '.' ∉ p := fun p h => (hmem p h).2
    have hrt : splitSep '.' (joinSep '.' (p0 :: ps)) = p0 :: ps :=
      joinSep_roundtrip '.' (p0 :: ps) hne hall
    rw [hfm, hp]
    refine ⟨Or.inr ?_, ?_, ?_⟩
    · rw [hrt]
      intro p hpp
      exact (hmem p hpp).1
    · have h0 : p0 ≠ [] := (hmem p0 (by simp)).1
      rw [joinSep_head? '.' p0 ps h0]
      intro hh
      have hdmem : '.' ∈ p0 := by
        cases p0 with
        | nil => exact absurd rfl h0
        | cons a p2 =>
          simp only [List.head?_cons, Option.some.injEq] at hh
          rw [hh]
          exact List.mem_cons_self '.' p2
      exact (hmem p0 (by simp)).2 hdmem
    · obtain ⟨q, hq, he⟩ :=
        joinSep_getLast?_mem '.' (p0 :: ps) hne (fun p h => (hmem p h).1)
      rw [he]
      intro hl
      obtain ⟨ys, rfl⟩ := List.getLast?_eq_some_iff.mp hl
      exact (hmem _ hq).2 (by simp)

/-! ### Filter and `getLast?` facts used for the package-name derivation -/

lemma filter_getLast_of_ne_nil (l : List (List Char)) (x : List Char)
    (hx : l.getLast? = some x) (hne : x ≠ []) :
    (l.filter (fun p => !p.isEmpty)).getLast? = some x := by
  obtain ⟨ys, rfl⟩ := List.getLast?_eq_some_iff.mp hx
  rw [List.filter_append]
  have hfx : List.filter (fun p => !p.isEmpty) [x] = [x] := by
    simp [List.filter_cons, hne]
  rw [hfx]
  exact List.getLast?_concat _

lemma filterNonEmpty_concat_nil (l : List (List Char)) :
    (l ++ [([] : List Char)]).filter (fun p => !p.isEmpty) =
      l.filter (fun p => !p.isEmpty) := by
  rw [List.filter_append]
  simp [List.filter_cons]

lemma packageName_concat (m : List Char) :
    (splitSep '/' (m ++ ['/'])).getD ((splitSep '/' (m ++ ['/'])).length - 2) [] =
      ((splitSep '/' m).getLast?).getD [] := by
  rw [splitSep_concat_sep '/' m]
  have hL : splitSep '/' m ≠ [] := splitSep_ne_nil '/' m
  have hpos : 0 < (splitSep '/' m).length := List.length_pos.mpr hL
  have hlen : ((splitSep '/' m) ++ [[]]).length = (splitSep '/' m).length + 1 := by
    simp
  rw [List.getD_eq_getElem?_getD, hlen]
  have hidx : (splitSep '/' m).length + 1 - 2 = (splitSep '/' m).length - 1 := by
    omega
  rw [hidx, List.getElem?_append_left (by omega), ← List.getLast?_eq_getElem?]

/-! ### Override application characterized field by field -/

lemma applyToLoader_fields (s : RenderSession) (pl : PythonLoaderState) :
    (applyToLoader s pl).modules =
        (if truthyList s.modules then s.modules.getD [] else pl.modules) ∧
      (applyToLoader s pl).packages =
        (if truthyList s.packages then s.packages.getD [] else pl.packages) ∧
      (applyToLoader s pl).search_path =
        (if truthyList s.search_path then s.search_path.getD [] else pl.search_path) ∧
      (applyToLoader s pl).parser_print_function =
        (match s.py2 with
          | some b => !b
          | none => pl.parser_print_function) := by
  unfold applyToLoader
  rcases s.py2 with _ | b <;>
    cases hm : truthyList s.modules <;>
    cases hp2 : truthyList s.packages <;>
    cases hs2 : truthyList s.search_path <;>
    simp [hm, hp2, hs2]

/-! ### The missing-loader failure of `load` -/

lemma load_no_loader_error (s : RenderSession) (fresh : PydocMarkdown)
    (lc : ConfigSrc → PydocMarkdown → PydocMarkdown)
    (hno : hasPythonLoader (effectiveConfig s fresh lc).loaders = false)
    (ht : overridesRequested s = true) :
    s.load fresh lc = Except.error "no python loader found" := by
  unfold RenderSession.load
  rw [show applyOverrides s (effectiveConfig s fresh lc) =
    Except.error "no python loader found" from by simp [applyOverrides, ht, hno]]

lemma packageName_cases (d : List Char) :
    ∃ m : List Char,
      packageName d = ((splitSep '/' m).getLast?).getD [] ∧
        lastNonEmptySeg d =
          ((splitSep '/' m).filter (fun p => !p.isEmpty)).getLast? := by
  by_cases hd : d.getLast? = some '/'
  · obtain ⟨ys, hys⟩ := List.getLast?_eq_some_iff.mp hd
    refine ⟨ys, ?_, ?_⟩
    · show (splitSep '/' (normalizeDir d)).getD
        ((splitSep '/' (normalizeDir d)).length - 2) [] = _
      rw [show normalizeDir d = ys ++ ['/'] from by simp [normalizeDir, hd, hys]]
      exact packageName_concat ys
    · show ((splitSep '/' d).filter _).getLast? = _
      rw [hys, splitSep_concat_sep '/' ys, filterNonEmpty_concat_nil]
  · refine ⟨d, ?_, rfl⟩
    show (splitSep '/' (normalizeDir d)).getD
      ((splitSep '/' (normalizeDir d)).length - 2) [] = _
    rw [show normalizeDir d = d ++ ['/'] from by simp [normalizeDir, hd]]
    exact packageName_concat d

lemma packageName_eq_lastNonEmptySeg (d : List Char) (h : packageName d ≠ []) :
    lastNonEmptySeg d = some (packageName d) := by
  obtain ⟨m, hpkg, hlast⟩ := packageName_cases d
  obtain ⟨x, hx⟩ : ∃ x, (splitSep '/' m).getLast? = some x := by
    cases hgl : (splitSep '/' m).getLast? with
    | none => exact absurd (List.getLast?_eq_none_iff.mp hgl) (splitSep_ne_nil '/' m)
    | some x => exact ⟨x, rfl⟩
  have hxne : x ≠ [] := by
    rw [hpkg, hx] at h
    simpa using h
  rw [hlast, filter_getLast_of_ne_nil (splitSep '/' m) x hx hxne, hpkg, hx]
  simp

/-! ### Claim theorems -/

/-- C1 (amended).  For every file path `f` and root `r` with `r` a literal
front piece of `f` and `f` ending in `".py"`, and such that the portion of
`f` strictly between the root and the trailing `".py"` contains no dot
character, `file2module f r` is a well-formed dotted name: it is empty or
all its dot-separated segments are nonempty, and it neither begins nor ends
with a dot.  The two concrete examples of the claim hold as stated. -/
theorem file2module_dotted_name :
    (∀ f r : List Char, r <+: f → pyExt <:+ f →
        '.' ∉ stripSuf pyExt (stripPre r f) →
        (file2module f r = [] ∨ ∀ p ∈ splitSep '.' (file2module f r), p ≠ []) ∧
          (file2module f r).head? ≠ some '.' ∧
          (file2module f r).getLast? ≠ some '.') ∧
      file2module "/a/b/pkg/mod.py".toList "/a/b/".toList = "pkg.mod".toList ∧
      file2module "/a/b/pkg/sub/mod.py".toList "/a/b/".toList =
        "pkg.sub.mod".toList :=
  ⟨fun f r _ _ hdot => file2module_shape f r hdot, by decide, by decide⟩

/-- C1 witness: the first spec example satisfies every hypothesis and the
conclusion is obtained by applying the theorem there. -/
theorem file2module_dotted_name_witness :
    (file2module "/a/b/pkg/mod.py".toList "/a/b/".toList).getLast? ≠ some '.' :=
  (file2module_dotted_name.1 "/a/b/pkg/mod.py".toList "/a/b/".toList
    (by decide) (by decide) (by decide)).2.2

/-- C1 counterexample: for `f = "/a/b..py"` and `r = "/a/"` the root is a
literal front piece of `f` and `f` ends in `".py"`, yet the resolver
returns `"b."`, which ends with a dot — refuting the claimed "no trailing
dot" invariant as universally stated. -/
theorem file2module_trailing_dot_cex :
    "/a/".toList <+: "/a/b..py".toList ∧
      pyExt <:+ "/a/b..py".toList ∧
      file2module "/a/b..py".toList "/a/".toList = "b.".toList ∧
      (file2module "/a/b..py".toList "/a/".toList).getLast? = some '.' := by
  decide

/-- C10 (amended).  `file2module` is total and deterministic on all inputs
(equal inputs give equal outputs — it is a pure function of its two
arguments), and the claimed segment shape (no empty dot-separated segment,
no leading or trailing dot) holds whenever the stripped path contains no
dot character; the counterexample shows it can fail otherwise. -/
theorem file2module_total_deterministic :
    (∀ f r f2 r2 : List Char, f = f2 → r = r2 →
        file2module f r = file2module f2 r2) ∧
      (∀ f r : List Char, '.' ∉ stripSuf pyExt (stripPre r f) →
        (file2module f r = [] ∨ ∀ p ∈ splitSep '.' (file2module f r), p ≠ []) ∧
          (file2module f r).head? ≠ some '.' ∧
          (file2module f r).getLast? ≠ some '.') :=
  ⟨fun _ _ _ _ hf hr => by rw [hf, hr],
    fun f r hdot => file2module_shape f r hdot⟩

/-- C10 witness: a concrete dot-free input, with the conclusion obtained by
applying the theorem there. -/
theorem file2module_total_deterministic_witness :
    (file2module "a/b.py".toList [] ).head? ≠ some '.' :=
  (file2module_total_deterministic.2 "a/b.py".toList [] (by decide)).2.1

/-- C10 counterexample: on input `file = ".x"`, `path = ""` the result is
`".x"`, which begins with a dot and whose dot-split has an empty segment —
refuting the claim's universal "never begins with a dot / no empty
segments" statement. -/
theorem file2module_leading_dot_cex :
    (file2module ".x".toList []).head? = some '.' ∧
      [] ∈ splitSep '.' (file2module ".x".toList []) := by
  decide

/-- C6 (amended).  The orchestration normalizes both directory paths to end
with a separator, and the derived package name equals the last non-empty
path segment of the package directory whenever that derived name is itself
non-empty (equivalently, whenever the normalized path does not end in a
doubled separator and is not the bare separator); the counterexample shows
the equality fails otherwise. -/
theorem normalize_and_package_name :
    (∀ d : List Char, (normalizeDir d).getLast? = some '/') ∧
      (∀ d : List Char, packageName d ≠ [] →
        lastNonEmptySeg d = some (packageName d)) := by
  constructor
  · intro d
    unfold normalizeDir
    split
    · assumption
    · exact List.getLast?_concat d
  · exact packageName_eq_lastNonEmptySeg

/-- C6 witness: applying the theorem at `"a/b/"` — the name is `"b"`, the
last non-empty segment. -/
theorem normalize_and_package_name_witness :
    lastNonEmptySeg "a/b/".toList = some (packageName "a/b/".toList) :=
  normalize_and_package_name.2 "a/b/".toList (by decide)

/-- C6 counterexample: for package directory `"a//"` the code derives the
empty package name, while the last non-empty path segment is `"a"` —
refuting the claimed equality. -/
theorem package_name_cex :
    packageName "a//".toList = [] ∧
      lastNonEmptySeg "a//".toList = some "a".toList ∧
      lastNonEmptySeg "a//".toList ≠ some (packageName "a//".toList) := by
  decide

/-- C2 (amended).  The computed output path applies `replace` twice, and
`replace` substitutes every occurrence, not only the prefix or suffix.  For
any candidate file of the shape `packageDir ++ stem ++ ".py"` in which the
package directory occurs only as the leading prefix and `".py"` occurs (in
the docs-substituted path) only as the trailing suffix, the computed output
path coincides with the claimed prefix-and-suffix substitution
`docsDir ++ stem ++ ".md"`. -/
theorem outputPath_prefix_suffix_subst (pkgDir docsDir stem : List Char)
    (hp : pkgDir ≠ [])
    (h1 : ∀ i, i < (pkgDir ++ stem ++ pyExt).length → 0 < i →
      ¬ pkgDir <+: ((pkgDir ++ stem ++ pyExt).drop i))
    (h2 : ∀ i, i < (docsDir ++ stem).length →
      ¬ pyExt <+: ((docsDir ++ stem ++ pyExt).drop i)) :
    outputPath pkgDir docsDir (pkgDir ++ stem ++ pyExt) =
      docsDir ++ stem ++ mdExt := by
  have hpy : pyExt ≠ [] := by simp [pyExt]
  have hno : ∀ i, ¬ pkgDir <+: ((stem ++ pyExt).drop i) := by
    intro i hpre
    by_cases hi : i < (stem ++ pyExt).length
    · have hdrop : (pkgDir ++ (stem ++ pyExt)).drop (pkgDir.length + i) =
          (stem ++ pyExt).drop i := by
        simp [List.drop_append]
      refine h1 (pkgDir.length + i) ?_ ?_ ?_
      · simp only [List.length_append] at hi ⊢
        omega
      · have := List.length_pos.mpr hp
        omega
      · rw [List.append_assoc, hdrop]
        exact hpre
    · have hdnil : (stem ++ pyExt).drop i = [] :=
        List.drop_eq_nil_of_le (by omega)
      rw [hdnil] at hpre
      exact hp (List.prefix_nil.mp hpre)
  have e1 : replaceAll pkgDir docsDir (pkgDir ++ (stem ++ pyExt)) =
      docsDir ++ (stem ++ pyExt) := by
    rw [replaceAll_prepend pkgDir docsDir (stem ++ pyExt) hp,
      replaceAll_no_occ pkgDir docsDir hp (stem ++ pyExt) hno]
  have e2 : replaceAll pyExt mdExt ((docsDir ++ stem) ++ pyExt) =
      (docsDir ++ stem) ++ mdExt :=
    replaceAll_tail_pat pyExt mdExt hpy (docsDir ++ stem) h2
  show replaceAll pyExt mdExt
      (replaceAll pkgDir docsDir (pkgDir ++ stem ++ pyExt)) = _
  rw [List.append_assoc pkgDir stem pyExt, e1,
    ← List.append_assoc docsDir stem pyExt, e2]

/-- C2 witness: `f = "pkg/a.py"`, normalized package directory `"pkg/"`,
docs directory `"docs/"`; the hypotheses hold and the theorem computes the
expected `"docs/a.md"`. -/
theorem outputPath_prefix_suffix_subst_witness :
    outputPath "pkg/".toList "docs/".toList "pkg/a.py".toList =
      "docs/a.md".toList := by
  have h := outputPath_prefix_suffix_subst "pkg/".toList "docs/".toList
    "a".toList (by decide) (by decide) (by decide)
  exact (by decide : "pkg/".toList ++ "a".toList ++ pyExt = "pkg/a.py".toList) ▸
    (by decide : "docs/".toList ++ "a".toList ++ mdExt = "docs/a.md".toList) ▸ h

/-- C2 counterexample: the candidate file `"pkg/pkg/a.py"` (admitted by the
per-file filter for package name `"pkg"`) contains the package directory
`"pkg/"` twice; the code's double `replace` rewrites both occurrences and
produces `"docs/docs/a.md"`, whereas substituting only the prefix and the
suffix (as the claim states) gives `"docs/pkg/a.md"`. -/
theorem outputPath_replaces_all_cex :
    shouldProcess [] "pkg".toList "pkg/pkg/a.py".toList = true ∧
      outputPath "pkg/".toList "docs/".toList "pkg/pkg/a.py".toList =
        "docs/docs/a.md".toList ∧
      claimedOutputPath "pkg/".toList "docs/".toList "pkg/pkg/a.py".toList =
        "docs/pkg/a.md".toList ∧
      outputPath "pkg/".toList "docs/".toList "pkg/pkg/a.py".toList ≠
        claimedOutputPath "pkg/".toList "docs/".toList "pkg/pkg/a.py".toList := by
  decide

/-- C3 (amended).  When the override step is triggered on a configuration
whose only loader is a Python loader, each list override (modules,
packages, search path) replaces the loader's corresponding field exactly
when the supplied override is truthy — non-`None` and non-empty; a `None`
or explicitly empty list leaves the field untouched.  In particular,
supplying only `search_path` (modules and packages `None`) leaves the
loader's modules and packages unchanged. -/
theorem applyOverrides_field_isolation (s : RenderSession) (c : PydocMarkdown)
    (pl : PythonLoaderState) (hl : c.loaders = [Loader.python pl])
    (ht : overridesRequested s = true) :
    applyOverrides s c =
        Except.ok { c with loaders := [Loader.python (applyToLoader s pl)] } ∧
      (applyToLoader s pl).modules =
        (if truthyList s.modules then s.modules.getD [] else pl.modules) ∧
      (applyToLoader s pl).packages =
        (if truthyList s.packages then s.packages.getD [] else pl.packages) ∧
      (applyToLoader s pl).search_path =
        (if truthyList s.search_path then s.search_path.getD []
          else pl.search_path) ∧
      (s.modules = none → s.packages = none →
        (applyToLoader s pl).modules = pl.modules ∧
          (applyToLoader s pl).packages = pl.packages) := by
  obtain ⟨hm, hpk, hsp, _⟩ := applyToLoader_fields s pl
  refine ⟨?_, hm, hpk, hsp, ?_⟩
  · simp [applyOverrides, ht, hl, hasPythonLoader, updateFirstPython]
  · intro hmn hpn
    rw [hm, hpk, hmn, hpn]
    simp [truthyList]

/-- C3 witness: supplying only the search path leaves the existing modules
and packages of the loader untouched, by applying the theorem at concrete
values. -/
theorem applyOverrides_field_isolation_witness :
    applyOverrides searchOnlySession samplePLConfig =
        Except.ok { samplePLConfig with loaders :=
          [Loader.python (applyToLoader searchOnlySession samplePL)] } ∧
      (applyToLoader searchOnlySession samplePL).modules = samplePL.modules ∧
      (applyToLoader searchOnlySession samplePL).packages = samplePL.packages :=
  ⟨(applyOverrides_field_isolation searchOnlySession samplePLConfig samplePL
      rfl (by decide)).1,
    ((applyOverrides_field_isolation searchOnlySession samplePLConfig samplePL
      rfl (by decide)).2.2.2.2 rfl rfl).1,
    ((applyOverrides_field_isolation searchOnlySession samplePLConfig samplePL
      rfl (by decide)).2.2.2.2 rfl rfl).2⟩

/-- C3 counterexample: a module-list override that is explicitly supplied
but empty is not applied — the loader keeps its previous `modules` value
`[["x"]]` instead of the supplied `[]` — refuting the claimed "replaces
if and only if explicitly supplied". -/
theorem applyOverrides_empty_list_cex :
    emptyModulesSession.modules = some [] ∧
      overridesRequested emptyModulesSession = true ∧
      applyOverrides emptyModulesSession samplePLConfig =
        Except.ok
          { loaders := [Loader.python
              { modules := [['x']], packages := [['y']],
                search_path := [['p']], parser_print_function := true }],
            unknown_fields := [], renderer_filename := none,
            contextDirSet := false } ∧
      (applyToLoader emptyModulesSession samplePL).modules = [['x']] ∧
      ([['x']] : List (List Char)) ≠ [] := by
  decide

/-- C4.  Whenever the effective configuration holds no Python loader and a
truthy (non-trivial) override is requested, `load()` fails with the
configuration error `"no python loader found"`, and the load-then-render
pass propagates the error without rendering anything. -/
theorem load_fails_without_python_loader (s : RenderSession)
    (fresh : PydocMarkdown) (lc : ConfigSrc → PydocMarkdown → PydocMarkdown)
    (lm : PydocMarkdown → List ModuleInfo)
    (hno : hasPythonLoader (effectiveConfig s fresh lc).loaders = false)
    (ht : overridesRequested s = true) :
    s.load fresh lc = Except.error "no python loader found" ∧
      runSession s fresh lc lm = Except.error "no python loader found" := by
  have h := load_no_loader_error s fresh lc hno ht
  exact ⟨h, by simp [runSession, h]⟩

/-- C4 witness: a session requesting only a search-path override over a
configuration with no loaders, by applying the theorem at concrete
values. -/
theorem load_fails_without_python_loader_witness :
    RenderSession.load searchOnlySession emptyConfig lcId =
        Except.error "no python loader found" ∧
      runSession searchOnlySession emptyConfig lcId lmNone =
        Except.error "no python loader found" :=
  load_fails_without_python_loader searchOnlySession emptyConfig lcId lmNone
    (by decide) (by decide)

/-- C5.  A source file whose base name is in the skip list never survives
the per-file filter of `main` — neither when the candidate list is supplied
explicitly nor when it is produced by the directory walk — and hence is
never given to the Module Path Resolver or a Render Session and produces no
output file. -/
theorem skip_list_enforcement (skip : List (List Char)) (pkgName f : List Char)
    (srcFiles : List (List Char)) (walk : List (List Char × List Char))
    (h : basename f ∈ skip) :
    f ∉ processedFiles skip pkgName srcFiles ∧
      f ∉ processedFiles skip pkgName (discoverFiles skip walk) := by
  have key : ∀ files : List (List Char), f ∉ processedFiles skip pkgName files := by
    intro files hf
    have hsp := List.of_mem_filter hf
    simp [shouldProcess, h] at hsp
  exact ⟨key srcFiles, key (discoverFiles skip walk)⟩

/-- C5 witness: `"pkg/__init__.py"` is skipped under the default skip list,
by applying the theorem at concrete values. -/
theorem skip_list_enforcement_witness :
    "pkg/__init__.py".toList ∉
      processedFiles ["__init__.py".toList] "pkg".toList
        ["pkg/__init__.py".toList] :=
  (skip_list_enforcement ["__init__.py".toList] "pkg".toList
    "pkg/__init__.py".toList ["pkg/__init__.py".toList]
    [("pkg".toList, "__init__.py".toList)] (by decide)).1

/-- C7.  When the legacy-syntax flag is not `None` and the configuration's
only loader is a Python loader, applying the overrides sets the loader's
parser print-as-function switch to the logical negation of the flag; when
the flag is `None` the switch is left unchanged. -/
theorem py2_flag_print_function (s : RenderSession) (c : PydocMarkdown)
    (pl : PythonLoaderState) (hl : c.loaders = [Loader.python pl]) :
    (∀ b, s.py2 = some b →
        applyOverrides s c =
            Except.ok { c with loaders :=
              [Loader.python (applyToLoader s pl)] } ∧
          (applyToLoader s pl).parser_print_function = !b) ∧
      (s.py2 = none →
        (applyToLoader s pl).parser_print_function =
          pl.parser_print_function) := by
  obtain ⟨_, _, _, hpf⟩ := applyToLoader_fields s pl
  constructor
  · intro b hb
    have ht : overridesRequested s = true := by
      simp [overridesRequested, hb]
    refine ⟨?_, ?_⟩
    · simp [applyOverrides, ht, hl, hasPythonLoader, updateFirstPython]
    · rw [hpf, hb]
  · intro hn
    rw [hpf, hn]

/-- C7 witness: `py2 = True` turns the parser switch off, by applying the
theorem at concrete values. -/
theorem py2_flag_print_function_witness :
    (applyToLoader py2TrueSession samplePL).parser_print_function = !true :=
  ((py2_flag_print_function py2TrueSession samplePLConfig samplePL rfl).1
    true rfl).2

/-- C8.  `render` returns, as a duplicate-free list, exactly the set of
source filenames of the discovered modules, with the configuration file
path additionally included precisely when the session's configuration
source is a file path. -/
theorem render_watch_list (s : RenderSession) (mods : List ModuleInfo) :
    (s.render mods).Nodup ∧
      ∀ x : List Char, x ∈ s.render mods ↔
        ((∃ m ∈ mods, m.location_filename = x) ∨
          ∃ p, s.config = ConfigSrc.file p ∧ x = p) := by
  have hbn : ((mods.map (fun m => m.location_filename)).dedup).Nodup :=
    List.nodup_dedup _
  have hbm : ∀ x : List Char,
      x ∈ (mods.map (fun m => m.location_filename)).dedup ↔
        ∃ m ∈ mods, m.location_filename = x := fun x => by
    rw [List.mem_dedup, List.mem_map]
  cases hc : s.config with
  | absent =>
    have hr : s.render mods = (mods.map (fun m => m.location_filename)).dedup := by
      simp [RenderSession.render, hc]
    rw [hr]
    refine ⟨hbn, fun x => ?_⟩
    rw [hbm x]
    simp [hc]
  | dict entries =>
    have hr : s.render mods = (mods.map (fun m => m.location_filename)).dedup := by
      simp [RenderSession.render, hc]
    rw [hr]
    refine ⟨hbn, fun x => ?_⟩
    rw [hbm x]
    simp [hc]
  | file p =>
    by_cases hp : p ∈ (mods.map (fun m => m.location_filename)).dedup
    · have hr : s.render mods = (mods.map (fun m => m.location_filename)).dedup := by
        simp [RenderSession.render, hc, hp]
      rw [hr]
      refine ⟨hbn, fun x => ?_⟩
      rw [hbm x]
      constructor
      · exact Or.inl
      · rintro (h | ⟨q, hq, rfl⟩)
        · exact h
        · injection hq with hq2
          rw [← hq2]
          exact (hbm p).mp hp
    · have hr : s.render mods =
          (mods.map (fun m => m.location_filename)).dedup ++ [p] := by
        simp [RenderSession.render, hc, hp]
      rw [hr]
      constructor
      · rw [List.nodup_append]
        refine ⟨hbn, by simp, ?_⟩
        intro a ha hma
        rw [List.mem_singleton] at hma
        exact hp (hma ▸ ha)
      · intro x
        rw [List.mem_append, hbm x, List.mem_singleton]
        simp
  
/-- C8 witness: a concrete session with a file configuration source and two
modules sharing a filename, by applying the theorem there. -/
theorem render_watch_list_witness :
    (RenderSession.render
      { config := ConfigSrc.file ['c'], render_toc := none,
        search_path := none, modules := none, packages := none,
        py2 := none }
      [{ location_filename := ['a'] }, { location_filename := ['a'] }]).Nodup :=
  (render_watch_list
    { config := ConfigSrc.file ['c'], render_toc := none, search_path := none,
      modules := none, packages := none, py2 := none }
    [{ location_filename := ['a'] }, { location_filename := ['a'] }]).1

/-- C9.  The orchestration passes `py2 = False` (never `None`) to every
session it builds, so the override branch is always entered; consequently,
when the effective configuration has no Python loader, the run aborts with
the configuration error on the first processed file, even though the
supplied package-list override is the empty list. -/
theorem main_aborts_without_loader (cfg : ConfigSrc)
    (packageDir docsDir f : List Char) (rest : List (List Char))
    (fresh : PydocMarkdown) (lc : ConfigSrc → PydocMarkdown → PydocMarkdown)
    (lm : PydocMarkdown → List ModuleInfo)
    (hno : hasPythonLoader
      (effectiveConfig (mainSession cfg packageDir f) fresh lc).loaders =
        false) :
    (mainSession cfg packageDir f).py2 = some false ∧
      (mainSession cfg packageDir f).packages = some [] ∧
      overridesRequested (mainSession cfg packageDir f) = true ∧
      runFiles cfg packageDir docsDir fresh lc lm (f :: rest) =
        Except.error "no python loader found" := by
  have ht : overridesRequested (mainSession cfg packageDir f) = true := by
    simp [overridesRequested, mainSession]
  have hload := load_no_loader_error (mainSession cfg packageDir f) fresh lc hno ht
  refine ⟨rfl, rfl, ht, ?_⟩
  simp [runFiles, processOne, hload]

/-- C9 witness: a one-file run over a loaderless configuration aborts, by
applying the theorem at concrete values. -/
theorem main_aborts_without_loader_witness :
    runFiles ConfigSrc.absent "p/".toList "d/".toList emptyConfig lcId lmNone
      ["p/a.py".toList] = Except.error "no python loader found" :=
  (main_aborts_without_loader ConfigSrc.absent "p/".toList "d/".toList
    "p/a.py".toList [] emptyConfig lcId lmNone (by decide)).2.2.2
